import Mathlib

/-
Verification of the peer-consensus discussion orchestrator.

Shallow embedding of the repository sources:
  peer_consensus/utils/convergence.py   (extract_convergence, check_convergence)
  peer_consensus/utils/db_manager.py    (DBManager)
  peer_consensus/llm_providers.py       (get_gpt_implementation)
  peer_consensus/run_discussion.py      (run_discussion and prompt builders)

Numeric values (Python floats) are modelled as rationals; LLM backends are
modelled as an oracle function from (model name, messages) to response text;
wall-clock timestamps are modelled as a clock function of (round, model).
-/

namespace PeerConsensus

/- ------------------------------------------------------------------ -/
/- convergence.py                                                      -/
/- ------------------------------------------------------------------ -/

/-- Literal part of the regex before the captured number:
"I am in agreement with ". -/
def litBefore : List Char := "I am in agreement with ".data

/-- Literal part of the regex after the captured number:
"% of the overall opinions given by my peers." (the escaped dot is a
literal period). -/
def litAfter : List Char := "% of the overall opinions given by my peers.".data

/-- Match a literal character sequence at the head of the input, returning
the rest of the input on success. -/
def dropLit : List Char → List Char → Option (List Char)
  | [], s => some s
  | _ :: _, [] => none
  | c :: cs, x :: xs => if x = c then dropLit cs xs else none

/-- Try the regex of extract_convergence at a fixed position of the text and
return the captured number (digits, with an optional fractional part) on
success.  This is the deterministic equivalent of the backtracking match of
the pattern
  I am in agreement with (\d+(?:\.\d+)?)% of the overall opinions given by my peers\.
at one start position: the first digit run is maximal (it is followed by a
non-digit in any successful match), the optional fractional group succeeds
only when a period is followed by a nonempty digit run, and no shorter digit
run can ever be followed by the required percent sign. -/
def matchAt (s : List Char) : Option (List Char) :=
  match dropLit litBefore s with
  | none => none
  | some r1 =>
    let d1 := r1.takeWhile Char.isDigit
    let r2 := r1.dropWhile Char.isDigit
    if d1 = [] then none
    else if r2.head? = some '.' then
      let d2 := r2.tail.takeWhile Char.isDigit
      let r4 := r2.tail.dropWhile Char.isDigit
      if d2 = [] then none
      else if (dropLit litAfter r4).isSome then some (d1 ++ '.' :: d2)
      else none
    else if (dropLit litAfter r2).isSome then some d1
    else none

/-- re.search: scan start positions left to right and return the capture of
the leftmost successful match. -/
def searchConv : List Char → Option (List Char)
  | [] => none
  | c :: cs =>
    match matchAt (c :: cs) with
    | some d => some d
    | none => searchConv cs

/-- Numeric value of a run of decimal digits. -/
def digitsToNat (l : List Char) : Nat :=
  l.foldl (fun a c => 10 * a + (c.toNat - '0'.toNat)) 0

/-- Value of the captured number string (integer part, optional fractional
part), the rational idealisation of Python float(group(1)). -/
def parseDec (l : List Char) : ℚ :=
  let ip := l.takeWhile Char.isDigit
  let rest := l.dropWhile Char.isDigit
  match rest with
  | '.' :: frac => (digitsToNat ip : ℚ) + (digitsToNat frac : ℚ) / ((10 : ℚ) ^ frac.length)
  | _ => (digitsToNat ip : ℚ)

/-- extract_convergence from convergence.py: the parsed number of the first
match of the required sentence, and 0.0 when there is no match. -/
def extract_convergence (response : String) : ℚ :=
  match searchConv response.data with
  | some d => parseDec d
  | none => 0

/-- check_convergence from convergence.py: sum the extracted values over the
latest responses, count the entries, guard against an empty map, and compare
the average against the threshold (inclusive). -/
def check_convergence (latest_responses : List (String × String)) (threshold : ℚ) :
    Bool × ℚ :=
  let total := latest_responses.foldl (fun acc p => acc + extract_convergence p.2) 0
  let count := latest_responses.length
  if count = 0 then (false, 0)
  else (decide (threshold ≤ total / (count : ℚ)), total / (count : ℚ))

/-- The shapes of number strings the regex can capture: a nonempty digit run,
optionally followed by a period and another nonempty digit run. -/
def ValidNumeral (n : List Char) : Prop :=
  (n ≠ [] ∧ ∀ c ∈ n, c.isDigit = true) ∨
    (∃ d1 d2, n = d1 ++ '.' :: d2 ∧ d1 ≠ [] ∧ d2 ≠ [] ∧
      (∀ c ∈ d1, c.isDigit = true) ∧ (∀ c ∈ d2, c.isDigit = true))

/-- The exact required sentence with a concrete number substituted. -/
def sentenceOf (n : List Char) : List Char :=
  litBefore ++ n ++ litAfter

/- ------------------------------------------------------------------ -/
/- db_manager.py                                                       -/
/- ------------------------------------------------------------------ -/

/-- One row of the responses table:
responses(response_number INTEGER PRIMARY KEY, response TEXT NOT NULL,
convergence REAL NOT NULL, timestamp TEXT NOT NULL). -/
structure RRecord where
  response_number : Nat
  response : String
  convergence : ℚ
  timestamp : String
  deriving DecidableEq, Repr

/-- DBManager.insert_response: INSERT one row; the primary key on
response_number makes an insert with an already present round number fail
(sqlite3.IntegrityError), leaving the table unchanged.  The timestamp is the
wall-clock string the caller observed at write time. -/
def insert_response (db : List RRecord) (response_number : Nat) (response : String)
    (convergence : ℚ) (timestamp : String) : Except String (List RRecord) :=
  if db.any (fun r => r.response_number == response_number) then
    Except.error "UNIQUE constraint failed: responses.response_number"
  else
    Except.ok (db ++ [⟨response_number, response, convergence, timestamp⟩])

/-- Insert one record into a list sorted by round number, keeping it sorted. -/
def insertByNumber (r : RRecord) : List RRecord → List RRecord
  | [] => [r]
  | x :: xs =>
    if r.response_number ≤ x.response_number then r :: x :: xs
    else x :: insertByNumber r xs

/-- DBManager.get_all_responses: SELECT * FROM responses ORDER BY
response_number ASC, modelled as sorting the stored rows by round number. -/
def get_all_responses (db : List RRecord) : List RRecord :=
  db.foldr insertByNumber []

/- ------------------------------------------------------------------ -/
/- llm_providers.py                                                    -/
/- ------------------------------------------------------------------ -/

/-- The two concrete completion backends constructed by the factory. -/
inductive GPTImpl where
  | openAIGPT (api_key model_name : String)
  | anthropicClaudeGPT (api_key model_name : String)
  deriving DecidableEq, Repr

/-- get_gpt_implementation: factory selecting the backend by the provider
tag; any other tag raises ValueError. -/
def get_gpt_implementation (api_key model_name model_provider : String) :
    Except String GPTImpl :=
  if model_provider = "openai-chatgpt" then
    Except.ok (GPTImpl.openAIGPT api_key model_name)
  else if model_provider = "anthropic-claude" then
    Except.ok (GPTImpl.anthropicClaudeGPT api_key model_name)
  else
    Except.error ("Unsupported model provider: " ++ model_provider)

/-- Provider tags the factory accepts. -/
def Supported (c_provider : String) : Prop :=
  c_provider = "openai-chatgpt" ∨ c_provider = "anthropic-claude"

instance (p : String) : Decidable (Supported p) := by
  unfold Supported; infer_instance

/- ------------------------------------------------------------------ -/
/- run_discussion.py                                                   -/
/- ------------------------------------------------------------------ -/

/-- One entry of the "models" list of the configuration JSON. -/
structure ModelCfg where
  name : String
  model_provider : String
  version : String
  api_key : String
  deriving DecidableEq, Repr

/-- The backend get_gpt_implementation builds for a supported entry. -/
def mkGPTImpl (c : ModelCfg) : GPTImpl :=
  if c.model_provider = "openai-chatgpt" then
    GPTImpl.openAIGPT c.api_key c.version
  else
    GPTImpl.anthropicClaudeGPT c.api_key c.version

/-- Python dict assignment d[k] = v on an insertion-ordered association
list: replace the value at the first occurrence of the key, else append. -/
def pyUpdate {β : Type} (k : String) (v : β) : List (String × β) → List (String × β)
  | [] => [(k, v)]
  | (k2, v2) :: rest =>
    if k2 = k then (k2, v) :: rest else (k2, v2) :: pyUpdate k v rest

/-- Python dict lookup d.get(k): the value at the first occurrence of the
key, if any. -/
def alookup {β : Type} (k : String) : List (String × β) → Option β
  | [] => none
  | (k2, v) :: rest => if k2 = k then some v else alookup k rest

/-- The model-initialisation loop of run_discussion: build each entry with
the factory, storing it in the gpt_models dict; the first failure aborts the
whole run (sys.exit inside the except branch). -/
def initModelsAux : List (String × GPTImpl) → List ModelCfg →
    Except String (List (String × GPTImpl))
  | acc, [] => Except.ok acc
  | acc, cfg :: rest =>
    match get_gpt_implementation cfg.api_key cfg.version cfg.model_provider with
    | Except.ok inst => initModelsAux (pyUpdate cfg.name inst acc) rest
    | Except.error e =>
      Except.error ("Error initializing model " ++ cfg.name ++ ": " ++ e)

/-- gpt_models dict built from the configured models list. -/
def initModels (cfgs : List ModelCfg) : Except String (List (String × GPTImpl)) :=
  initModelsAux [] cfgs

/-- What exists after run_discussion's pre-loop phase succeeded: the bound
backends, the freshly created session folder, and one store file per
participant. -/
structure SessionSetup where
  gpt_models : List (String × GPTImpl)
  session_folder : String
  db_paths : List String
  deriving DecidableEq, Repr

/-- The pre-loop phase of run_discussion, in source order: the
max-interactions check, then the zero-models check, then backend
construction; only after all of them succeed is the session folder created
and a store per model opened.  An error therefore leaves no session folder
and no store behind. -/
def setup (max_interactions : Int) (cfgs : List ModelCfg)
    (responses_folder_path prompt_title timestamp : String) :
    Except String SessionSetup :=
  if max_interactions < 2 then
    Except.error "Error: max-interactions must be at least 2."
  else if cfgs.length = 0 then
    Except.error "Error: No models found in config."
  else
    match initModels cfgs with
    | Except.error e => Except.error e
    | Except.ok gms =>
      let folder := responses_folder_path ++ "/" ++ prompt_title ++ " - " ++ timestamp
      Except.ok
        { gpt_models := gms
          session_folder := folder
          db_paths := gms.map (fun p => folder ++ "/" ++ p.1 ++ ".db") }

/-- The literal template each model must reproduce with a number filled in. -/
def required_convergence_phrase : String :=
  "I am in agreement with \x7bpercentage\x7d% of the overall opinions given by my peers."

/-- build_initial_prompt: a single user message for round 1. -/
def build_initial_prompt (model_name : String) (total_models : Nat)
    (research_prompt : String) (convergence_phrase : String) :
    List (String × String) :=
  [("user",
    "Please provide a substantive, evidence-based opinion on " ++ research_prompt ++
    ". Your answer should be direct and grounded in current scientific research, " ++
    "focusing solely on the topic. Additionally, include exactly the following " ++
    "sentence somewhere in your response: \x27" ++ convergence_phrase ++ "\x27. " ++
    "Do not include any role-play, meta commentary, or discussion of your own " ++
    "identity as an AI.")]

/-- build_iterative_prompt: a single user message quoting the model's own
previous answer and listing each peer's latest answer in dict order. -/
def build_iterative_prompt (model_name : String) (own_last_response : String)
    (peer_responses : List (String × String)) (convergence_phrase : String) :
    List (String × String) :=
  let base :=
    "Based on your previous response (shown below) and the latest opinions from " ++
    "your peers, please update your evidence-based opinion on a promising avenue " ++
    "for cancer treatment. Ensure that your answer is factual, grounded in current " ++
    "scientific research, and focused solely on the topic. Include exactly the " ++
    "following sentence somewhere in your response: \x27" ++ convergence_phrase ++
    "\x27.\n\nYour previous answer:\n" ++ own_last_response ++
    "\n\nYour peers\x27 latest opinions:\n"
  [("user", peer_responses.foldl (fun acc p => acc ++ p.1 ++ ": " ++ p.2 ++ "\n") base)]

/-- Everything the interaction loop closes over: the completion backends
(one oracle from model name and messages to response text), the model names
in configuration order (the keys of gpt_models), the research prompt, the
convergence threshold, and the write clock for timestamps. -/
structure Ctx where
  oracle : String → List (String × String) → String
  models : List String
  research_prompt : String
  threshold : ℚ
  clock : Nat → String → String

/-- The prompt the loop body builds for one model: initial in interaction 1,
iterative afterwards, with own last response looked up in latest_responses
and the peer dict excluding the model itself. -/
def promptFor (C : Ctx) (k : Nat) (latest : List (String × String))
    (model_name : String) : List (String × String) :=
  if k = 1 then
    build_initial_prompt model_name C.models.length C.research_prompt
      required_convergence_phrase
  else
    build_iterative_prompt model_name ((alookup model_name latest).getD "")
      (latest.filter (fun p => p.1 ≠ model_name)) required_convergence_phrase

/-- The orchestrator's mutable state: the latest_responses dict and, per
model, the rows of its response store. -/
structure OrchState where
  latest : List (String × String)
  stores : String → List RRecord

/-- State before round 1: empty dict, freshly created empty stores. -/
def initialState : OrchState :=
  ⟨[], fun _ => []⟩

/-- The body of the inner per-model loop for interaction k: build the
prompt, query the backend, extract convergence, insert the round record in
the model's own store, and update latest_responses in place. -/
def stepModel (C : Ctx) (k : Nat) (st : OrchState) (model_name : String) :
    OrchState :=
  let messages := promptFor C k st.latest model_name
  let response_text := C.oracle model_name messages
  let convergence_val := extract_convergence response_text
  { latest := pyUpdate model_name response_text st.latest
    stores := fun n =>
      if n = model_name then
        st.stores n ++ [⟨k, response_text, convergence_val, C.clock k model_name⟩]
      else st.stores n }

/-- One full interaction: query every model in configuration order. -/
def processRound (C : Ctx) (k : Nat) (st : OrchState) : OrchState :=
  C.models.foldl (stepModel C k) st

/-- State after the first k full interactions (ignoring the stop decision,
which never alters the state of executed rounds). -/
def stateAfter (C : Ctx) : Nat → OrchState
  | 0 => initialState
  | k + 1 => processRound C (k + 1) (stateAfter C k)

/-- State in the middle of interaction k, after its first i models were
queried. -/
def midState (C : Ctx) (k i : Nat) : OrchState :=
  (C.models.take i).foldl (stepModel C k) (stateAfter C (k - 1))

/-- Name of the model at position i of the configuration order. -/
def modelAt (C : Ctx) (i : Nat) : String :=
  C.models.getD i ""

/-- The response the model at position i produces in interaction k. -/
def wResp (C : Ctx) (k i : Nat) : String :=
  C.oracle (modelAt C i) (promptFor C k (midState C k i).latest (modelAt C i))

/-- The response recorded for a model in latest_responses at the end of
interaction k. -/
def roundResponse (C : Ctx) (k : Nat) (m : String) : String :=
  (alookup m (stateAfter C k).latest).getD ""

/-- Result of the convergence check run after interaction k. -/
def convergedAfter (C : Ctx) (k : Nat) : Bool :=
  (check_convergence (stateAfter C k).latest C.threshold).1

/-- The interaction loop "for interaction in range(1, max_interactions+1)"
with its convergence break: from state st after interaction k, run up to n
more interactions; return the list of interaction numbers actually executed
and the final state. -/
def discussionLoop (C : Ctx) : Nat → Nat → OrchState → List Nat × OrchState
  | _, 0, st => ([], st)
  | k, n + 1, st =>
    let st2 := processRound C (k + 1) st
    if (check_convergence st2.latest C.threshold).1 then ([k + 1], st2)
    else
      let r := discussionLoop C (k + 1) n st2
      ((k + 1) :: r.1, r.2)

/-- The whole discussion: run the loop from the initial state. -/
def runDiscussion (C : Ctx) (max_interactions : Nat) : List Nat × OrchState :=
  discussionLoop C 0 max_interactions initialState

/-- Number of interactions the loop starting after interaction k with n
remaining slots executes before stopping. -/
def stopCount (C : Ctx) : Nat → Nat → Nat
  | _, 0 => 0
  | k, n + 1 =>
    if convergedAfter C (k + 1) then 1 else 1 + stopCount C (k + 1) n

/- ================================================================== -/
/- Theorems                                                            -/
/- ================================================================== -/

/- Association-list (Python dict) lemmas. -/

theorem alookup_pyUpdate_self {β : Type} (k : String) (v : β) (l : List (String × β)) :
    alookup k (pyUpdate k v l) = some v := by
  induction l with
  | nil => simp [pyUpdate, alookup]
  | cons p rest ih =>
    obtain ⟨k2, v2⟩ := p
    by_cases h : k2 = k
    · simp [pyUpdate, alookup, h]
    · simp [pyUpdate, alookup, h, ih]

theorem alookup_pyUpdate_ne {β : Type} {k k2 : String} (h : k2 ≠ k) (v : β)
    (l : List (String × β)) : alookup k2 (pyUpdate k v l) = alookup k2 l := by
  induction l with
  | nil => simp [pyUpdate, alookup, Ne.symm h]
  | cons p rest ih =>
    obtain ⟨k3, v3⟩ := p
    by_cases h3 : k3 = k
    · subst h3
      simp [pyUpdate, alookup, Ne.symm h]
    · simp [pyUpdate, alookup, h3, ih]

theorem keys_pyUpdate {β : Type} (k : String) (v : β) (l : List (String × β)) :
    (pyUpdate k v l).map Prod.fst
      = if k ∈ l.map Prod.fst then l.map Prod.fst else l.map Prod.fst ++ [k] := by
  induction l with
  | nil => simp [pyUpdate]
  | cons p rest ih =>
    obtain ⟨k2, v2⟩ := p
    by_cases h : k2 = k
    · subst h; simp [pyUpdate]
    · by_cases hk : k ∈ rest.map Prod.fst
      · simp [pyUpdate, h, ih, hk, Ne.symm h]
      · simp [pyUpdate, h, ih, hk, Ne.symm h]

theorem pyUpdate_notMem {β : Type} {k : String} (v : β) {l : List (String × β)}
    (h : k ∉ l.map Prod.fst) : pyUpdate k v l = l ++ [(k, v)] := by
  induction l with
  | nil => simp [pyUpdate]
  | cons p rest ih =>
    obtain ⟨k2, v2⟩ := p
    simp only [List.map_cons, List.mem_cons, not_or] at h
    have hne : k2 ≠ k := Ne.symm h.1
    simp [pyUpdate, hne, ih h.2]

theorem pyUpdate_append_keyHead {β : Type} {k : String} (v w : β)
    {l1 : List (String × β)} (l2 : List (String × β)) (h : k ∉ l1.map Prod.fst) :
    pyUpdate k v (l1 ++ (k, w) :: l2) = l1 ++ (k, v) :: l2 := by
  induction l1 with
  | nil => simp [pyUpdate]
  | cons p rest ih =>
    obtain ⟨k2, v2⟩ := p
    simp only [List.map_cons, List.mem_cons, not_or] at h
    have hne : k2 ≠ k := Ne.symm h.1
    simp [pyUpdate, hne, ih h.2]

theorem alookup_append_notMem {β : Type} {k : String} {l1 : List (String × β)}
    (l2 : List (String × β)) (h : k ∉ l1.map Prod.fst) :
    alookup k (l1 ++ l2) = alookup k l2 := by
  induction l1 with
  | nil => simp
  | cons p rest ih =>
    obtain ⟨k2, v2⟩ := p
    simp only [List.map_cons, List.mem_cons, not_or] at h
    have hne : k2 ≠ k := Ne.symm h.1
    simp [alookup, hne, ih h.2]

theorem alookup_map_self {β : Type} (l : List String) (f : String → β) {k : String}
    (h : k ∈ l) : alookup k (l.map (fun m => (m, f m))) = some (f k) := by
  induction l with
  | nil => cases h
  | cons a rest ih =>
    by_cases ha : a = k
    · subst ha; simp [alookup]
    · rcases List.mem_cons.mp h with rfl | hmem
      · exact absurd rfl ha
      · simp [alookup, ha, ih hmem]

/- Claim C2 helpers. -/

theorem foldl_add_extract (l : List (String × String)) (init : ℚ) :
    l.foldl (fun acc p => acc + extract_convergence p.2) init
      = init + (l.map (fun p => extract_convergence p.2)).sum := by
  induction l generalizing init with
  | nil => simp
  | cons x xs ih => simp [ih, add_assoc]

/-- Claim C2: for every non-empty latest-responses map and every threshold,
check_convergence reports the unweighted arithmetic mean of the per-entry
extracted values as its average and converged is true exactly when that
average is at least the threshold (inclusive at equality); for the empty map
it returns (false, 0.0) without dividing by zero. -/
theorem checkConvergence_mean_and_threshold (l : List (String × String)) (th : ℚ)
    (h : l ≠ []) :
    (check_convergence l th).2
        = (l.map (fun p => extract_convergence p.2)).sum / (l.length : ℚ)
    ∧ ((check_convergence l th).1 = true ↔
        th ≤ (l.map (fun p => extract_convergence p.2)).sum / (l.length : ℚ))
    ∧ check_convergence [] th = (false, 0) := by
  have hlen : l.length ≠ 0 := by simpa using h
  refine ⟨?_, ?_, rfl⟩
  · simp [check_convergence, hlen, foldl_add_extract]
  · simp [check_convergence, hlen, foldl_add_extract]

theorem checkConvergence_mean_and_threshold_witness :
    ([("modelA", "no convergence sentence")] : List (String × String)) ≠ []
    ∧ ((check_convergence [("modelA", "no convergence sentence")] 90).2
        = (([("modelA", "no convergence sentence")] : List (String × String)).map
            (fun p => extract_convergence p.2)).sum
            / (([("modelA", "no convergence sentence")] : List (String × String)).length : ℚ)
      ∧ ((check_convergence [("modelA", "no convergence sentence")] 90).1 = true ↔
          90 ≤ (([("modelA", "no convergence sentence")] : List (String × String)).map
            (fun p => extract_convergence p.2)).sum
            / (([("modelA", "no convergence sentence")] : List (String × String)).length : ℚ))
      ∧ check_convergence [] 90 = (false, 0)) :=
  ⟨by decide, checkConvergence_mean_and_threshold _ 90 (by decide)⟩

/-- Claim C8: inserting a record whose round number already exists in the
store fails with the primary-key storage error instead of overwriting; no
updated store is produced, so the existing record is unchanged. -/
theorem insertResponse_duplicate_round_error (db : List RRecord) (n : Nat)
    (resp : String) (conv : ℚ) (ts : String)
    (h : n ∈ db.map (fun r => r.response_number)) :
    insert_response db n resp conv ts
      = Except.error "UNIQUE constraint failed: responses.response_number" := by
  have hany : db.any (fun r => r.response_number == n) = true := by
    rw [List.any_eq_true]
    rcases List.mem_map.mp h with ⟨r, hr, hrn⟩
    exact ⟨r, hr, by simpa using hrn⟩
  simp [insert_response, hany]

theorem insertResponse_duplicate_round_error_witness :
    (1 : Nat) ∈ ([⟨1, "first answer", 50, "t1"⟩] : List RRecord).map
        (fun r => r.response_number)
    ∧ insert_response [⟨1, "first answer", 50, "t1"⟩] 1 "second answer" 60 "t2"
        = Except.error "UNIQUE constraint failed: responses.response_number" :=
  ⟨by decide,
   insertResponse_duplicate_round_error [⟨1, "first answer", 50, "t1"⟩] 1
     "second answer" 60 "t2" (by decide)⟩

/- Factory lemmas. -/

theorem get_gpt_ok_of_supported (c : ModelCfg) (h : Supported c.model_provider) :
    get_gpt_implementation c.api_key c.version c.model_provider
      = Except.ok (mkGPTImpl c) := by
  rcases h with h | h <;> simp [get_gpt_implementation, mkGPTImpl, h]

theorem get_gpt_error_of_unsupported (c : ModelCfg) (h : ¬ Supported c.model_provider) :
    get_gpt_implementation c.api_key c.version c.model_provider
      = Except.error ("Unsupported model provider: " ++ c.model_provider) := by
  rw [Supported, not_or] at h
  simp [get_gpt_implementation, h.1, h.2]

theorem initModelsAux_error_of_unsupported :
    ∀ (cfgs : List ModelCfg) (acc : List (String × GPTImpl)),
      (∃ c ∈ cfgs, ¬ Supported c.model_provider) →
      ∃ e, initModelsAux acc cfgs = Except.error e := by
  intro cfgs
  induction cfgs with
  | nil =>
    intro acc h
    rcases h with ⟨c, hc, _⟩
    cases hc
  | cons c rest ih =>
    intro acc h
    by_cases hs : Supported c.model_provider
    · rcases h with ⟨c2, hc2, hns⟩
      rcases List.mem_cons.mp hc2 with rfl | hmem
      · exact absurd hs hns
      · rcases ih (pyUpdate c.name (mkGPTImpl c) acc) ⟨c2, hmem, hns⟩ with ⟨e, he⟩
        refine ⟨e, ?_⟩
        rw [initModelsAux, get_gpt_ok_of_supported c hs]
        exact he
    · refine ⟨"Error initializing model " ++ c.name ++ ": " ++
        ("Unsupported model provider: " ++ c.model_provider), ?_⟩
      rw [initModelsAux, get_gpt_error_of_unsupported c hs]

/-- Claim C6: an invalid configuration (max-interactions below 2, an empty
models list, or an unsupported provider tag) makes the run fail during
setup, before any round and before the session folder or any response store
is created: setup returns an error instead of a SessionSetup, and the
max-interactions = 1 case in particular is a configuration error. -/
theorem setup_invalid_config_error (maxI : Int) (cfgs : List ModelCfg)
    (folder title ts : String)
    (h : maxI < 2 ∨ cfgs = [] ∨ ∃ c ∈ cfgs, ¬ Supported c.model_provider) :
    ∃ msg, setup maxI cfgs folder title ts = Except.error msg := by
  by_cases hm : maxI < 2
  · exact ⟨"Error: max-interactions must be at least 2.", by simp [setup, hm]⟩
  rcases h with h | h | h
  · exact absurd h hm
  · subst h
    exact ⟨"Error: No models found in config.", by simp [setup, hm]⟩
  · by_cases hn : cfgs.length = 0
    · exact ⟨"Error: No models found in config.", by simp [setup, hm, hn]⟩
    · rcases initModelsAux_error_of_unsupported cfgs [] h with ⟨e, he⟩
      refine ⟨e, ?_⟩
      rw [setup, if_neg hm, if_neg hn, initModels] at *
      rw [he]

theorem setup_invalid_config_error_witness :
    ((1 : Int) < 2 ∨ ([⟨"m1", "openai-chatgpt", "v", "key"⟩] : List ModelCfg) = [] ∨
      ∃ c ∈ ([⟨"m1", "openai-chatgpt", "v", "key"⟩] : List ModelCfg),
        ¬ Supported c.model_provider)
    ∧ ∃ msg, setup 1 [⟨"m1", "openai-chatgpt", "v", "key"⟩] "responses" "Session C"
        "20240101000000" = Except.error msg :=
  ⟨Or.inl (by decide),
   setup_invalid_config_error 1 [⟨"m1", "openai-chatgpt", "v", "key"⟩]
     "responses" "Session C" "20240101000000" (Or.inl (by decide))⟩

/- Claim C10 helpers. -/

theorem initModelsAux_ok :
    ∀ (cfgs : List ModelCfg) (acc : List (String × GPTImpl)),
      (∀ c ∈ cfgs, Supported c.model_provider) →
      ∃ d, initModelsAux acc cfgs = Except.ok d
        ∧ (∀ nm, match (cfgs.filter (fun x => x.name = nm)).getLast? with
            | some c => alookup nm d = some (mkGPTImpl c)
            | none => alookup nm d = alookup nm acc)
        ∧ (∀ nm, nm ∈ d.map Prod.fst
            ↔ nm ∈ acc.map Prod.fst ∨ nm ∈ cfgs.map (fun c => c.name))
        ∧ ((acc.map Prod.fst).Nodup → (d.map Prod.fst).Nodup) := by
  intro cfgs
  induction cfgs with
  | nil =>
    intro acc _
    refine ⟨acc, rfl, ?_, by simp, fun h => h⟩
    intro nm
    simp
  | cons c rest ih =>
    intro acc hall
    have hs : Supported c.model_provider := hall c (by simp)
    rcases ih (pyUpdate c.name (mkGPTImpl c) acc)
        (fun c2 h2 => hall c2 (by simp [h2])) with ⟨d, hd, hlook, hmem, hnd⟩
    refine ⟨d, ?_, ?_, ?_, ?_⟩
    · rw [initModelsAux, get_gpt_ok_of_supported c hs]
      exact hd
    · intro nm
      by_cases hcn : c.name = nm
      · have hfilter : (c :: rest).filter (fun x => x.name = nm)
            = c :: rest.filter (fun x => x.name = nm) := by
          simp [List.filter_cons, hcn]
        rw [hfilter]
        have := hlook nm
        cases hfr : (rest.filter (fun x => x.name = nm)).getLast? with
        | some c2 =>
          rw [hfr] at this
          have hne : rest.filter (fun x => x.name = nm) ≠ [] := by
            intro he
            rw [he] at hfr
            cases hfr
          cases hcons : rest.filter (fun x => x.name = nm) with
          | nil => exact absurd hcons hne
          | cons f0 fr =>
            rw [hcons] at hfr
            simp only [List.getLast?_cons_cons, hcons, hfr]
            exact this
        | none =>
          rw [hfr] at this
          have hfe : rest.filter (fun x => x.name = nm) = [] :=
            List.getLast?_eq_none_iff.mp hfr
          rw [hfe]
          simp only [List.getLast?_singleton]
          rw [this, ← hcn, alookup_pyUpdate_self]
        -- done
      · have hfilter : (c :: rest).filter (fun x => x.name = nm)
            = rest.filter (fun x => x.name = nm) := by
          simp [List.filter_cons, hcn]
        rw [hfilter]
        have := hlook nm
        cases hfr : (rest.filter (fun x => x.name = nm)).getLast? with
        | some c2 => rw [hfr] at this; exact this
        | none =>
          rw [hfr] at this
          rw [this, alookup_pyUpdate_ne (Ne.symm hcn)]
    · intro nm
      rw [hmem nm, keys_pyUpdate]
      by_cases hk : c.name ∈ acc.map Prod.fst
      · simp only [if_pos hk, List.map_cons, List.mem_cons]
        constructor
        · rintro (h | h)
          · exact Or.inl h
          · exact Or.inr (Or.inr h)
        · rintro (h | h | h)
          · exact Or.inl h
          · exact Or.inl (h ▸ hk)
          · exact Or.inr h
      · simp only [if_neg hk, List.mem_append, List.map_cons, List.mem_cons,
          List.not_mem_nil, or_false]
        tauto
    · intro hacc
      apply hnd
      rw [keys_pyUpdate]
      by_cases hk : c.name ∈ acc.map Prod.fst
      · rw [if_pos hk]; exact hacc
      · rw [if_neg hk]
        exact hacc.append (List.nodup_singleton c.name)
          (fun a ha hb => by
            rw [List.mem_singleton] at hb
            exact hk (hb ▸ ha))

/-- Claim C10: duplicate names in the models list are not an error: the
gpt_models dict collapses them into one participant per distinct name, each
bound to the backend of the last configuration entry with that name, so
there are strictly fewer participants (and stores) than entries. -/
theorem duplicate_names_last_provider (cfgs : List ModelCfg)
    (hall : ∀ c ∈ cfgs, Supported c.model_provider)
    (hdup : ¬ (cfgs.map (fun c => c.name)).Nodup) :
    ∃ d, initModels cfgs = Except.ok d
      ∧ (d.map Prod.fst).Nodup
      ∧ (∀ nm, nm ∈ d.map Prod.fst ↔ nm ∈ cfgs.map (fun c => c.name))
      ∧ d.length = (cfgs.map (fun c => c.name)).toFinset.card
      ∧ d.length < cfgs.length
      ∧ (∀ nm, nm ∈ cfgs.map (fun c => c.name) →
          ∃ c, (cfgs.filter (fun x => x.name = nm)).getLast? = some c
            ∧ alookup nm d = some (mkGPTImpl c)) := by
  rcases initModelsAux_ok cfgs [] hall with ⟨d, hd, hlook, hmem, hnd⟩
  have hmem2 : ∀ nm, nm ∈ d.map Prod.fst ↔ nm ∈ cfgs.map (fun c => c.name) := by
    intro nm
    rw [hmem nm]
    simp
  have hnodup : (d.map Prod.fst).Nodup := hnd (by simp)
  have hfin : (d.map Prod.fst).toFinset = (cfgs.map (fun c => c.name)).toFinset := by
    ext nm
    simp only [List.mem_toFinset]
    exact hmem2 nm
  have hlen : d.length = (cfgs.map (fun c => c.name)).toFinset.card := by
    rw [← hfin, List.toFinset_card_of_nodup hnodup, List.length_map]
  refine ⟨d, hd, hnodup, hmem2, hlen, ?_, ?_⟩
  · rw [hlen, List.card_toFinset]
    have hsub := List.dedup_sublist (cfgs.map (fun c => c.name))
    have hle := hsub.length_le
    rw [List.length_map] at hle
    rcases Nat.lt_or_ge ((cfgs.map (fun c => c.name)).dedup.length) cfgs.length with h | h
    · exact h
    · exfalso
      have heq : (cfgs.map (fun c => c.name)).dedup.length
          = (cfgs.map (fun c => c.name)).length := by
        rw [List.length_map]
        omega
      have := hsub.eq_of_length heq
      exact hdup (this ▸ List.nodup_dedup _)
  · intro nm hnm
    have := hlook nm
    rcases List.mem_map.mp hnm with ⟨c, hc, hcn⟩
    have hcf : c ∈ cfgs.filter (fun x => x.name = nm) := by
      rw [List.mem_filter]
      exact ⟨hc, by simp [hcn]⟩
    have hne : cfgs.filter (fun x => x.name = nm) ≠ [] := by
      intro he
      rw [he] at hcf
      cases hcf
    cases hfr : (cfgs.filter (fun x => x.name = nm)).getLast? with
    | none => exact absurd (List.getLast?_eq_none_iff.mp hfr) hne
    | some c2 =>
      rw [hfr] at this
      exact ⟨c2, rfl, this⟩

theorem duplicate_names_last_provider_witness :
    (∀ c ∈ ([⟨"m", "openai-chatgpt", "v1", "k1"⟩,
             ⟨"m", "anthropic-claude", "v2", "k2"⟩] : List ModelCfg),
        Supported c.model_provider)
    ∧ ¬ (([⟨"m", "openai-chatgpt", "v1", "k1"⟩,
           ⟨"m", "anthropic-claude", "v2", "k2"⟩] : List ModelCfg).map
          (fun c => c.name)).Nodup
    ∧ ∃ d, initModels [⟨"m", "openai-chatgpt", "v1", "k1"⟩,
          ⟨"m", "anthropic-claude", "v2", "k2"⟩] = Except.ok d
        ∧ (d.map Prod.fst).Nodup
        ∧ (∀ nm, nm ∈ d.map Prod.fst
            ↔ nm ∈ ([⟨"m", "openai-chatgpt", "v1", "k1"⟩,
                ⟨"m", "anthropic-claude", "v2", "k2"⟩] : List ModelCfg).map
                (fun c => c.name))
        ∧ d.length = (([⟨"m", "openai-chatgpt", "v1", "k1"⟩,
              ⟨"m", "anthropic-claude", "v2", "k2"⟩] : List ModelCfg).map
              (fun c => c.name)).toFinset.card
        ∧ d.length < ([⟨"m", "openai-chatgpt", "v1", "k1"⟩,
            ⟨"m", "anthropic-claude", "v2", "k2"⟩] : List ModelCfg).length
        ∧ (∀ nm, nm ∈ ([⟨"m", "openai-chatgpt", "v1", "k1"⟩,
              ⟨"m", "anthropic-claude", "v2", "k2"⟩] : List ModelCfg).map
              (fun c => c.name) →
            ∃ c, (([⟨"m", "openai-chatgpt", "v1", "k1"⟩,
                ⟨"m", "anthropic-claude", "v2", "k2"⟩] : List ModelCfg).filter
                (fun x => x.name = nm)).getLast? = some c
              ∧ alookup nm d = some (mkGPTImpl c)) :=
  ⟨by decide, by decide,
   duplicate_names_last_provider
     [⟨"m", "openai-chatgpt", "v1", "k1"⟩, ⟨"m", "anthropic-claude", "v2", "k2"⟩]
     (by decide) (by decide)⟩

/- Extractor lemmas (claims C3, C4, C9). -/

theorem dropLit_append (lit s : List Char) : dropLit lit (lit ++ s) = some s := by
  induction lit with
  | nil => simp [dropLit]
  | cons c cs ih => simp [dropLit, ih]

theorem litAfter_head : litAfter = '%' :: " of the overall opinions given by my peers.".data :=
  rfl

theorem matchAt_nil : matchAt [] = none := rfl

theorem takeWhile_all_cons (p : Char → Bool) (a : List Char) (b : Char) (t : List Char)
    (ha : ∀ c ∈ a, p c = true) (hb : p b = false) :
    (a ++ b :: t).takeWhile p = a ∧ (a ++ b :: t).dropWhile p = b :: t := by
  induction a with
  | nil => simp [List.takeWhile_cons, List.dropWhile_cons, hb]
  | cons x xs ih =>
    have hx : p x = true := ha x (by simp)
    have hrest := ih (fun c hc => ha c (by simp [hc]))
    simp [List.takeWhile_cons, List.dropWhile_cons, hx, hrest.1, hrest.2]

theorem matchAt_sentenceOf (n post : List Char) (hn : ValidNumeral n) :
    matchAt (sentenceOf n ++ post) = some n := by
  have hpct : Char.isDigit '%' = false := by decide
  rcases hn with ⟨hne, hdig⟩ | ⟨d1, d2, hsplit, h1, h2, hd1, hd2⟩
  · -- integer numeral
    have harr : sentenceOf n ++ post
        = litBefore ++ (n ++ ('%' :: (" of the overall opinions given by my peers.".data ++ post))) := by
      simp [sentenceOf, litAfter_head]
    have hsp := takeWhile_all_cons Char.isDigit n '%'
      (" of the overall opinions given by my peers.".data ++ post) hdig hpct
    rw [harr, matchAt, dropLit_append]
    simp only [hsp.1, hsp.2]
    rw [if_neg hne]
    have hhead : (('%' :: (" of the overall opinions given by my peers.".data ++ post)) :
        List Char).head? = some '%' := rfl
    rw [hhead]
    rw [if_neg (by decide : ¬ (some '%' = some '.'))]
    have : ('%' :: (" of the overall opinions given by my peers.".data ++ post) : List Char)
        = litAfter ++ post := by
      simp [litAfter_head]
    rw [this, dropLit_append]
    rfl
  · -- decimal numeral
    subst hsplit
    have hdot : Char.isDigit '.' = false := by decide
    have harr : sentenceOf (d1 ++ '.' :: d2) ++ post
        = litBefore ++ (d1 ++ '.' :: (d2 ++ ('%' ::
            (" of the overall opinions given by my peers.".data ++ post)))) := by
      simp [sentenceOf, litAfter_head]
    have hsp1 := takeWhile_all_cons Char.isDigit d1 '.'
      (d2 ++ ('%' :: (" of the overall opinions given by my peers.".data ++ post))) hd1 hdot
    have hsp2 := takeWhile_all_cons Char.isDigit d2 '%'
      (" of the overall opinions given by my peers.".data ++ post) hd2 hpct
    rw [harr, matchAt, dropLit_append]
    simp only [hsp1.1, hsp1.2]
    rw [if_neg h1]
    have hhead : (('.' :: (d2 ++ ('%' ::
        (" of the overall opinions given by my peers.".data ++ post)))) :
        List Char).head? = some '.' := rfl
    rw [hhead, if_pos rfl]
    simp only [List.tail_cons, hsp2.1, hsp2.2]
    rw [if_neg h2]
    have : ('%' :: (" of the overall opinions given by my peers.".data ++ post) : List Char)
        = litAfter ++ post := by
      simp [litAfter_head]
    rw [this, dropLit_append]
    rfl

theorem searchConv_eq_some_of_matchAt {l d : List Char}
    (h : matchAt l = some d) : searchConv l = some d := by
  cases l with
  | nil => rw [matchAt_nil] at h; cases h
  | cons c cs => rw [searchConv, h]

theorem searchConv_append_of_none (pre s : List Char)
    (h : ∀ i < pre.length, matchAt ((pre ++ s).drop i) = none) :
    searchConv (pre ++ s) = searchConv s := by
  induction pre with
  | nil => simp
  | cons c cs ih =>
    have h0 := h 0 (by simp)
    rw [List.drop_zero] at h0
    rw [List.cons_append] at h0 ⊢
    rw [searchConv, h0]
    exact ih (fun i hi => by
      have := h (i + 1) (by simpa using Nat.succ_lt_succ hi)
      simpa using this)

theorem searchConv_none (l : List Char)
    (h : ∀ i < l.length, matchAt (l.drop i) = none) : searchConv l = none := by
  induction l with
  | nil => rfl
  | cons c cs ih =>
    have h0 := h 0 (by simp)
    rw [List.drop_zero] at h0
    rw [searchConv, h0]
    exact ih (fun i hi => by
      have := h (i + 1) (by simpa using Nat.succ_lt_succ hi)
      simpa using this)

/-- Claim C3: a response containing the exact required sentence with an
integer or decimal numeral yields that parsed number; the match is the
regex's exact, case-sensitive wording, and when the sentence occurs several
times (the first occurrence being the one at the end of pre, with no match
starting inside pre) the first occurrence's number is the one returned, no
matter what follows. -/
theorem extractConvergence_exact_sentence (pre post n : List Char)
    (hn : ValidNumeral n)
    (hfirst : ∀ i < pre.length, matchAt ((pre ++ (sentenceOf n ++ post)).drop i) = none) :
    extract_convergence (String.mk (pre ++ (sentenceOf n ++ post))) = parseDec n := by
  have hm : matchAt (sentenceOf n ++ post) = some n := matchAt_sentenceOf n post hn
  have hsearch : searchConv (pre ++ (sentenceOf n ++ post)) = some n := by
    rw [searchConv_append_of_none pre _ hfirst, searchConv_eq_some_of_matchAt hm]
  simp [extract_convergence, hsearch]

theorem extractConvergence_exact_sentence_witness :
    ValidNumeral "50".data
    ∧ (∀ i < ([] : List Char).length,
        matchAt ((([] : List Char) ++ (sentenceOf "50".data ++ sentenceOf "75".data)).drop i)
          = none)
    ∧ extract_convergence
        (String.mk (([] : List Char) ++ (sentenceOf "50".data ++ sentenceOf "75".data)))
        = parseDec "50".data :=
  ⟨Or.inl ⟨by decide, by decide⟩,
   fun i hi => absurd hi (by simp),
   extractConvergence_exact_sentence [] (sentenceOf "75".data) "50".data
     (Or.inl ⟨by decide, by decide⟩) (fun i hi => absurd hi (by simp))⟩

/-- Claim C4: when the regex matches at no position of the text (empty text,
wrong case, missing trailing period, different wording or a malformed
percentage all make every position fail), extract_convergence returns
exactly 0.0 instead of raising. -/
theorem extractConvergence_no_match_zero (s : String)
    (h : ∀ i < s.data.length, matchAt (s.data.drop i) = none) :
    extract_convergence s = 0 := by
  simp [extract_convergence, searchConv_none s.data h]

theorem extractConvergence_no_match_zero_witness :
    (∀ i < ("i am in agreement with 50% of the overall opinions given by my peers.").data.length,
        matchAt (("i am in agreement with 50% of the overall opinions given by my peers.").data.drop i)
          = none)
    ∧ extract_convergence "i am in agreement with 50% of the overall opinions given by my peers."
        = 0 :=
  ⟨by decide,
   extractConvergence_no_match_zero
     "i am in agreement with 50% of the overall opinions given by my peers." (by decide)⟩

/-- Claim C9: extracted convergence values above 100 are not clamped: the
sentence with a number above 100 extracts to exactly that number, and
check_convergence averages it as is, so the reported average exceeds 100 and
such an entry counts fully toward any threshold at or below it. -/
theorem convergence_values_unclamped (n : List Char) (name : String) (th : ℚ)
    (hn : ValidNumeral n) (h100 : 100 < parseDec n) (hth : th ≤ parseDec n) :
    extract_convergence (String.mk (sentenceOf n)) = parseDec n
    ∧ (check_convergence [(name, String.mk (sentenceOf n))] th).2 = parseDec n
    ∧ 100 < (check_convergence [(name, String.mk (sentenceOf n))] th).2
    ∧ (check_convergence [(name, String.mk (sentenceOf n))] th).1 = true := by
  have hm : matchAt (sentenceOf n ++ []) = some n := matchAt_sentenceOf n [] hn
  rw [List.append_nil] at hm
  have hex : extract_convergence (String.mk (sentenceOf n)) = parseDec n := by
    simp [extract_convergence, searchConv_eq_some_of_matchAt hm]
  have havg : (check_convergence [(name, String.mk (sentenceOf n))] th).2 = parseDec n := by
    simp [check_convergence, hex]
  refine ⟨hex, havg, havg ▸ h100, ?_⟩
  simp [check_convergence, hex, hth]

theorem convergence_values_unclamped_witness :
    ValidNumeral "150".data
    ∧ 100 < parseDec "150".data
    ∧ (90 : ℚ) ≤ parseDec "150".data
    ∧ (extract_convergence (String.mk (sentenceOf "150".data)) = parseDec "150".data
      ∧ (check_convergence [("m", String.mk (sentenceOf "150".data))] 90).2
          = parseDec "150".data
      ∧ 100 < (check_convergence [("m", String.mk (sentenceOf "150".data))] 90).2
      ∧ (check_convergence [("m", String.mk (sentenceOf "150".data))] 90).1 = true) :=
  ⟨Or.inl ⟨by decide, by decide⟩, by decide, by decide,
   convergence_values_unclamped "150".data "m" 90
     (Or.inl ⟨by decide, by decide⟩) (by decide) (by decide)⟩

/- Interaction-loop lemmas (claim C1). -/

theorem discussionLoop_char (C : Ctx) :
    ∀ n k, discussionLoop C k n (stateAfter C k)
      = (List.range' (k + 1) (stopCount C k n), stateAfter C (k + stopCount C k n)) := by
  intro n
  induction n with
  | zero => intro k; simp [discussionLoop, stopCount]
  | succ n ih =>
    intro k
    have hst : processRound C (k + 1) (stateAfter C k) = stateAfter C (k + 1) := rfl
    have hcond : (check_convergence (processRound C (k + 1) (stateAfter C k)).latest
        C.threshold).1 = convergedAfter C (k + 1) := rfl
    cases hc : convergedAfter C (k + 1) with
    | true =>
      rw [discussionLoop]
      simp only [hcond, hc, if_true]
      rw [stopCount, if_pos hc, hst]
      rfl
    | false =>
      rw [discussionLoop]
      simp only [hcond, hc, Bool.false_eq_true, if_false]
      rw [hst, ih (k + 1)]
      have hsc : stopCount C k (n + 1) = stopCount C (k + 1) n + 1 := by
        rw [stopCount, if_neg (by simp [hc])]
        omega
      rw [hsc]
      have harith : k + (stopCount C (k + 1) n + 1) = k + 1 + stopCount C (k + 1) n := by
        omega
      rw [harith, List.range'_succ]

theorem stopCount_le (C : Ctx) : ∀ n k, stopCount C k n ≤ n := by
  intro n
  induction n with
  | zero => intro k; simp [stopCount]
  | succ n ih =>
    intro k
    rw [stopCount]
    split
    · omega
    · have := ih (k + 1)
      omega

theorem stopCount_pos (C : Ctx) (n k : Nat) (h : 1 ≤ n) : 1 ≤ stopCount C k n := by
  cases n with
  | zero => omega
  | succ n =>
    rw [stopCount]
    split <;> omega

theorem stopCount_mid_false (C : Ctx) :
    ∀ n k j, k < j → j < k + stopCount C k n → convergedAfter C j = false := by
  intro n
  induction n with
  | zero =>
    intro k j h1 h2
    simp [stopCount] at h2
    omega
  | succ n ih =>
    intro k j h1 h2
    rw [stopCount] at h2
    by_cases hc : convergedAfter C (k + 1) = true
    · rw [if_pos hc] at h2
      omega
    · rw [if_neg hc] at h2
      by_cases hj : j = k + 1
      · subst hj
        simpa using hc
      · exact ih (k + 1) j (by omega) (by omega)

theorem stopCount_last_true (C : Ctx) :
    ∀ n k, stopCount C k n < n → convergedAfter C (k + stopCount C k n) = true := by
  intro n
  induction n with
  | zero =>
    intro k h
    simp [stopCount] at h
  | succ n ih =>
    intro k h
    by_cases hc : convergedAfter C (k + 1) = true
    · rw [stopCount, if_pos hc]
      exact hc
    · rw [stopCount, if_neg hc] at h ⊢
      have := ih (k + 1) (by omega)
      have harith : k + (1 + stopCount C (k + 1) n) = k + 1 + stopCount C (k + 1) n := by
        omega
      rw [harith]
      exact this

/-- Claim C1: with at least one model and max-interactions at least 2, the
loop executes the consecutive interactions 1..R for some R between 1 and
max-interactions: every interaction before R had a failed convergence check
(so no round runs after a converged check), R is below max-interactions only
when its own check converged (the loop stops early exactly on convergence),
and a failed check at R forces R = max-interactions (non-error exhaustion
after exactly max-interactions rounds when no check ever converges). -/
theorem orchestrator_halts_iff_converged (C : Ctx) (maxI : Nat)
    (hm : C.models ≠ []) (hmax : 2 ≤ maxI) :
    ∃ R, 1 ≤ R ∧ R ≤ maxI
      ∧ (runDiscussion C maxI).1 = List.range' 1 R
      ∧ (runDiscussion C maxI).2 = stateAfter C R
      ∧ (∀ j, 1 ≤ j → j < R → convergedAfter C j = false)
      ∧ (R < maxI → convergedAfter C R = true)
      ∧ (convergedAfter C R = false → R = maxI) := by
  have hrun : runDiscussion C maxI
      = (List.range' 1 (stopCount C 0 maxI), stateAfter C (0 + stopCount C 0 maxI)) :=
    discussionLoop_char C maxI 0
  refine ⟨stopCount C 0 maxI, stopCount_pos C maxI 0 (by omega), stopCount_le C maxI 0,
    ?_, ?_, ?_, ?_, ?_⟩
  · rw [hrun]
  · rw [hrun]
    simp
  · intro j h1 h2
    exact stopCount_mid_false C maxI 0 j (by omega) (by omega)
  · intro hlt
    have := stopCount_last_true C maxI 0 hlt
    simpa using this
  · intro hf
    by_contra hne
    have hlt : stopCount C 0 maxI < maxI :=
      lt_of_le_of_ne (stopCount_le C maxI 0) hne
    have := stopCount_last_true C maxI 0 hlt
    rw [Nat.zero_add] at this
    rw [this] at hf
    cases hf

theorem orchestrator_halts_iff_converged_witness :
    (Ctx.mk (fun _ _ => "") ["alpha"] "a research topic" 90 (fun _ _ => "ts")).models ≠ []
    ∧ 2 ≤ 2
    ∧ ∃ R, 1 ≤ R ∧ R ≤ 2
      ∧ (runDiscussion (Ctx.mk (fun _ _ => "") ["alpha"] "a research topic" 90
          (fun _ _ => "ts")) 2).1 = List.range' 1 R
      ∧ (runDiscussion (Ctx.mk (fun _ _ => "") ["alpha"] "a research topic" 90
          (fun _ _ => "ts")) 2).2
          = stateAfter (Ctx.mk (fun _ _ => "") ["alpha"] "a research topic" 90
              (fun _ _ => "ts")) R
      ∧ (∀ j, 1 ≤ j → j < R → convergedAfter (Ctx.mk (fun _ _ => "") ["alpha"]
          "a research topic" 90 (fun _ _ => "ts")) j = false)
      ∧ (R < 2 → convergedAfter (Ctx.mk (fun _ _ => "") ["alpha"] "a research topic" 90
          (fun _ _ => "ts")) R = true)
      ∧ (convergedAfter (Ctx.mk (fun _ _ => "") ["alpha"] "a research topic" 90
          (fun _ _ => "ts")) R = false → R = 2) :=
  ⟨by decide, by decide,
   orchestrator_halts_iff_converged
     (Ctx.mk (fun _ _ => "") ["alpha"] "a research topic" 90 (fun _ _ => "ts")) 2
     (by decide) (by decide)⟩

/- Round-state shape lemmas (claims C5, C7). -/

theorem modelAt_inj (C : Ctx) (hnd : C.models.Nodup) {i j : Nat}
    (hi : i < C.models.length) (hj : j < C.models.length)
    (h : modelAt C i = modelAt C j) : i = j := by
  rw [modelAt, modelAt, List.getD_eq_getElem _ _ hi, List.getD_eq_getElem _ _ hj] at h
  exact hnd.getElem_inj_iff.mp h

theorem midState_succ (C : Ctx) (k i : Nat) (hi : i < C.models.length) :
    midState C k (i + 1) = stepModel C k (midState C k i) (modelAt C i) := by
  rw [midState, midState, List.take_succ, List.getElem?_eq_getElem hi]
  rw [show C.models[i] = modelAt C i from (List.getD_eq_getElem C.models "" hi).symm]
  simp

theorem stepModel_latest (C : Ctx) (k : Nat) (st : OrchState) (m : String) :
    (stepModel C k st m).latest
      = pyUpdate m (C.oracle m (promptFor C k st.latest m)) st.latest := rfl

theorem wResp_def (C : Ctx) (k i : Nat) :
    wResp C k i = C.oracle (modelAt C i) (promptFor C k (midState C k i).latest (modelAt C i)) :=
  rfl

theorem modelAt_range_keys_notMem (C : Ctx) (hnd : C.models.Nodup) {i : Nat}
    (hi : i < C.models.length) (w : Nat → String) :
    modelAt C i ∉ ((List.range i).map (fun j => (modelAt C j, w j))).map Prod.fst := by
  intro hmem
  rw [List.map_map] at hmem
  rcases List.mem_map.mp hmem with ⟨j, hj, hje⟩
  have hjlt : j < i := List.mem_range.mp hj
  have : i = j := modelAt_inj C hnd hi (by omega) hje.symm
  omega

theorem midState_one_shape (C : Ctx) (hnd : C.models.Nodup) :
    ∀ i, i ≤ C.models.length →
      (midState C 1 i).latest
        = (List.range i).map (fun j => (modelAt C j, wResp C 1 j)) := by
  intro i
  induction i with
  | zero => intro _; rfl
  | succ i ih =>
    intro hle
    have hi : i < C.models.length := by omega
    rw [midState_succ C 1 i hi, stepModel_latest, ← wResp_def, ih (by omega)]
    rw [pyUpdate_notMem _ (modelAt_range_keys_notMem C hnd hi _)]
    rw [List.range_succ, List.map_append]
    rfl

theorem midState_shape (C : Ctx) (hnd : C.models.Nodup) (k : Nat) (f : String → String)
    (hprev : (stateAfter C (k + 1)).latest = C.models.map (fun m => (m, f m))) :
    ∀ i, i ≤ C.models.length →
      (midState C (k + 2) i).latest
        = (List.range i).map (fun j => (modelAt C j, wResp C (k + 2) j))
          ++ (C.models.drop i).map (fun m => (m, f m)) := by
  intro i
  induction i with
  | zero =>
    intro _
    have h0 : midState C (k + 2) 0 = stateAfter C (k + 1) := rfl
    rw [h0, hprev]
    simp
  | succ i ih =>
    intro hle
    have hi : i < C.models.length := by omega
    rw [midState_succ C (k + 2) i hi, stepModel_latest, ← wResp_def, ih (by omega)]
    rw [List.drop_eq_getElem_cons hi, List.map_cons]
    rw [show C.models[i] = modelAt C i from (List.getD_eq_getElem C.models "" hi).symm]
    rw [pyUpdate_append_keyHead _ _ _ (modelAt_range_keys_notMem C hnd hi _)]
    rw [List.range_succ, List.map_append]
    simp

theorem midState_full (C : Ctx) (k : Nat) :
    midState C (k + 1) C.models.length = stateAfter C (k + 1) := by
  rw [midState, List.take_length]
  rfl

theorem rangeMap_eq_map (C : Ctx) (hnd : C.models.Nodup) {β : Type} (w : Nat → β) :
    (List.range C.models.length).map (fun j => (modelAt C j, w j))
      = C.models.map (fun m => (m, w (C.models.indexOf m))) := by
  apply List.ext_getElem
  · simp
  · intro i h1 h2
    simp only [List.getElem_map, List.getElem_range]
    rw [List.length_map, List.length_range] at h1
    rw [List.indexOf_getElem hnd]
    rw [modelAt, List.getD_eq_getElem _ _ h1]

theorem stateAfter_shape (C : Ctx) (hnd : C.models.Nodup) :
    ∀ k, (stateAfter C (k + 1)).latest
      = (List.range C.models.length).map (fun j => (modelAt C j, wResp C (k + 1) j)) := by
  intro k
  induction k with
  | zero =>
    rw [← midState_full C 0]
    exact midState_one_shape C hnd C.models.length (le_refl _)
  | succ k ih =>
    have hprev : (stateAfter C (k + 1)).latest
        = C.models.map (fun m => (m, wResp C (k + 1) (C.models.indexOf m))) :=
      ih.trans (rangeMap_eq_map C hnd _)
    have := midState_shape C hnd k _ hprev C.models.length (le_refl _)
    rw [← midState_full C (k + 1)]
    rw [this]
    simp

theorem stateAfter_latest_roundResponse (C : Ctx) (hnd : C.models.Nodup) (k : Nat) :
    (stateAfter C (k + 1)).latest
      = C.models.map (fun m => (m, roundResponse C (k + 1) m)) := by
  have h : (stateAfter C (k + 1)).latest
      = C.models.map (fun m => (m, wResp C (k + 1) (C.models.indexOf m))) :=
    (stateAfter_shape C hnd k).trans (rangeMap_eq_map C hnd _)
  rw [h]
  apply List.map_congr_left
  intro m hm
  rw [roundResponse, h, alookup_map_self _ _ hm]
  rfl

theorem wResp_eq_roundResponse (C : Ctx) (hnd : C.models.Nodup) (k : Nat) {j : Nat}
    (hj : j < C.models.length) :
    wResp C (k + 1) j = roundResponse C (k + 1) (modelAt C j) := by
  have heq := (stateAfter_shape C hnd k).symm.trans
    (stateAfter_latest_roundResponse C hnd k)
  have hlen : j < ((List.range C.models.length).map
      (fun j => (modelAt C j, wResp C (k + 1) j))).length := by
    simp [hj]
  have := List.getElem_of_eq heq hlen
  simp only [List.getElem_map, List.getElem_range] at this
  have hsnd := congrArg Prod.snd this
  simp only at hsnd
  rw [hsnd]
  rw [show C.models[j] = modelAt C j from (List.getD_eq_getElem C.models "" hj).symm]

theorem notMem_drop_succ_self (C : Ctx) (hnd : C.models.Nodup) {i : Nat}
    (hi : i < C.models.length) : modelAt C i ∉ C.models.drop (i + 1) := by
  intro hmem
  have hsplit : C.models.take (i + 1) ++ C.models.drop (i + 1) = C.models :=
    List.take_append_drop _ _
  have hnd2 : (C.models.take (i + 1) ++ C.models.drop (i + 1)).Nodup := by
    rw [hsplit]; exact hnd
  have hdisj := (List.nodup_append.mp hnd2).2.2
  have hlt : i < (C.models.take (i + 1)).length := by
    simp [List.length_take]
    omega
  have htake : modelAt C i ∈ C.models.take (i + 1) := by
    have hgt : (C.models.take (i + 1))[i] = modelAt C i := by
      rw [List.getElem_take]
      exact (List.getD_eq_getElem C.models "" hi).symm
    rw [← hgt]
    exact List.getElem_mem hlt
  exact hdisj htake hmem

/-- Claim C5: in every interaction k at least 2, the iterative prompt built
for the participant at position i of the configuration order quotes its own
round-(k-1) response and lists, in order, the round-k responses of the peers
queried before it in the same interaction followed by the round-(k-1)
responses of the peers queried after it; the peer list never contains the
requesting model itself, and for the first model (i = 0) it consists solely
of round-(k-1) answers. -/
theorem iterativePrompt_peer_visibility (C : Ctx) (k i : Nat) (hnd : C.models.Nodup)
    (hk : 2 ≤ k) (hi : i < C.models.length) :
    promptFor C k (midState C k i).latest (modelAt C i)
      = build_iterative_prompt (modelAt C i) (roundResponse C (k - 1) (modelAt C i))
          ((List.range i).map (fun j => (modelAt C j, roundResponse C k (modelAt C j)))
            ++ (C.models.drop (i + 1)).map (fun m => (m, roundResponse C (k - 1) m)))
          required_convergence_phrase
    ∧ ∀ p ∈ (List.range i).map (fun j => (modelAt C j, roundResponse C k (modelAt C j)))
            ++ (C.models.drop (i + 1)).map (fun m => (m, roundResponse C (k - 1) m)),
        p.1 ≠ modelAt C i := by
  obtain ⟨k', rfl⟩ : ∃ k', k = k' + 2 := ⟨k - 2, by omega⟩
  have hprev := stateAfter_latest_roundResponse C hnd k'
  have hshape := midState_shape C hnd k' (roundResponse C (k' + 1)) hprev i (le_of_lt hi)
  have hAkeys := modelAt_range_keys_notMem C hnd hi (wResp C (k' + 2))
  have hdropne : ∀ m ∈ C.models.drop (i + 1), m ≠ modelAt C i := by
    intro m hm he
    exact notMem_drop_succ_self C hnd hi (he ▸ hm)
  have hrangene : ∀ j < i, modelAt C j ≠ modelAt C i := by
    intro j hj he
    have : j = i := modelAt_inj C hnd (by omega) hi he
    omega
  constructor
  · rw [promptFor, if_neg (by omega)]
    rw [hshape]
    -- own last response
    rw [alookup_append_notMem _ hAkeys]
    rw [List.drop_eq_getElem_cons hi, List.map_cons,
        show C.models[i] = modelAt C i from (List.getD_eq_getElem C.models "" hi).symm]
    rw [show alookup (modelAt C i)
          ((modelAt C i, roundResponse C (k' + 1) (modelAt C i)) ::
            (C.models.drop (i + 1)).map (fun m => (m, roundResponse C (k' + 1) m)))
        = some (roundResponse C (k' + 1) (modelAt C i)) by simp [alookup]]
    -- peer dict
    rw [List.filter_append, List.filter_cons]
    rw [if_neg (by simp)]
    have hfA : ((List.range i).map (fun j => (modelAt C j, wResp C (k' + 2) j))).filter
        (fun p => p.1 ≠ modelAt C i)
        = (List.range i).map (fun j => (modelAt C j, wResp C (k' + 2) j)) := by
      apply List.filter_eq_self.mpr
      intro p hp
      rcases List.mem_map.mp hp with ⟨j, hj, rfl⟩
      simp only [decide_eq_true_eq]
      exact hrangene j (List.mem_range.mp hj)
    have hfB : ((C.models.drop (i + 1)).map (fun m => (m, roundResponse C (k' + 1) m))).filter
        (fun p => p.1 ≠ modelAt C i)
        = (C.models.drop (i + 1)).map (fun m => (m, roundResponse C (k' + 1) m)) := by
      apply List.filter_eq_self.mpr
      intro p hp
      rcases List.mem_map.mp hp with ⟨m, hm, rfl⟩
      simp only [decide_eq_true_eq]
      exact hdropne m hm
    rw [hfA, hfB]
    have hA : (List.range i).map (fun j => (modelAt C j, wResp C (k' + 2) j))
        = (List.range i).map
            (fun j => (modelAt C j, roundResponse C (k' + 2) (modelAt C j))) := by
      apply List.map_congr_left
      intro j hj
      have hjlt : j < C.models.length := by
        have := List.mem_range.mp hj
        omega
      rw [wResp_eq_roundResponse C hnd (k' + 1) hjlt]
    rw [hA]
    simp
  · intro p hp
    rcases List.mem_append.mp hp with hp | hp
    · rcases List.mem_map.mp hp with ⟨j, hj, rfl⟩
      exact hrangene j (List.mem_range.mp hj)
    · rcases List.mem_map.mp hp with ⟨m, hm, rfl⟩
      exact hdropne m hm

theorem iterativePrompt_peer_visibility_witness :
    (Ctx.mk (fun nm _ => nm ++ " says") ["alpha", "beta"] "topic" 90
        (fun _ _ => "ts")).models.Nodup
    ∧ 2 ≤ 2
    ∧ 1 < (Ctx.mk (fun nm _ => nm ++ " says") ["alpha", "beta"] "topic" 90
        (fun _ _ => "ts")).models.length
    ∧ (promptFor (Ctx.mk (fun nm _ => nm ++ " says") ["alpha", "beta"] "topic" 90
          (fun _ _ => "ts")) 2
        (midState (Ctx.mk (fun nm _ => nm ++ " says") ["alpha", "beta"] "topic" 90
          (fun _ _ => "ts")) 2 1).latest
        (modelAt (Ctx.mk (fun nm _ => nm ++ " says") ["alpha", "beta"] "topic" 90
          (fun _ _ => "ts")) 1)
      = build_iterative_prompt
          (modelAt (Ctx.mk (fun nm _ => nm ++ " says") ["alpha", "beta"] "topic" 90
            (fun _ _ => "ts")) 1)
          (roundResponse (Ctx.mk (fun nm _ => nm ++ " says") ["alpha", "beta"] "topic" 90
            (fun _ _ => "ts")) (2 - 1)
            (modelAt (Ctx.mk (fun nm _ => nm ++ " says") ["alpha", "beta"] "topic" 90
              (fun _ _ => "ts")) 1))
          ((List.range 1).map (fun j =>
              (modelAt (Ctx.mk (fun nm _ => nm ++ " says") ["alpha", "beta"] "topic" 90
                (fun _ _ => "ts")) j,
               roundResponse (Ctx.mk (fun nm _ => nm ++ " says") ["alpha", "beta"]
                "topic" 90 (fun _ _ => "ts")) 2
                (modelAt (Ctx.mk (fun nm _ => nm ++ " says") ["alpha", "beta"] "topic" 90
                  (fun _ _ => "ts")) j)))
            ++ ((Ctx.mk (fun nm _ => nm ++ " says") ["alpha", "beta"] "topic" 90
                (fun _ _ => "ts")).models.drop (1 + 1)).map (fun m =>
              (m, roundResponse (Ctx.mk (fun nm _ => nm ++ " says") ["alpha", "beta"]
                "topic" 90 (fun _ _ => "ts")) (2 - 1) m)))
          required_convergence_phrase
      ∧ ∀ p ∈ (List.range 1).map (fun j =>
              (modelAt (Ctx.mk (fun nm _ => nm ++ " says") ["alpha", "beta"] "topic" 90
                (fun _ _ => "ts")) j,
               roundResponse (Ctx.mk (fun nm _ => nm ++ " says") ["alpha", "beta"]
                "topic" 90 (fun _ _ => "ts")) 2
                (modelAt (Ctx.mk (fun nm _ => nm ++ " says") ["alpha", "beta"] "topic" 90
                  (fun _ _ => "ts")) j)))
            ++ ((Ctx.mk (fun nm _ => nm ++ " says") ["alpha", "beta"] "topic" 90
                (fun _ _ => "ts")).models.drop (1 + 1)).map (fun m =>
              (m, roundResponse (Ctx.mk (fun nm _ => nm ++ " says") ["alpha", "beta"]
                "topic" 90 (fun _ _ => "ts")) (2 - 1) m)),
          p.1 ≠ modelAt (Ctx.mk (fun nm _ => nm ++ " says") ["alpha", "beta"] "topic" 90
            (fun _ _ => "ts")) 1) :=
  ⟨by decide, by decide, by decide,
   iterativePrompt_peer_visibility
     (Ctx.mk (fun nm _ => nm ++ " says") ["alpha", "beta"] "topic" 90 (fun _ _ => "ts"))
     2 1 (by decide) (by decide) (by decide)⟩

/- Response-store lemmas (claim C7). -/

theorem stepModel_stores_ne (C : Ctx) (k : Nat) (st : OrchState) (name n : String)
    (h : n ≠ name) : (stepModel C k st name).stores n = st.stores n := by
  simp [stepModel, h]

theorem foldl_stores_notMem (C : Ctx) (k : Nat) :
    ∀ (todo : List String) (st : OrchState) (mm : String), mm ∉ todo →
      (todo.foldl (stepModel C k) st).stores mm = st.stores mm := by
  intro todo
  induction todo with
  | nil => intro st mm _; rfl
  | cons c rest ih =>
    intro st mm hmm
    simp only [List.mem_cons, not_or] at hmm
    rw [List.foldl_cons, ih _ mm hmm.2, stepModel_stores_ne C k st c mm hmm.1]

theorem foldl_stores_mem (C : Ctx) (k : Nat) :
    ∀ (todo : List String) (st : OrchState) (mm : String), todo.Nodup → mm ∈ todo →
      ∃ r, (todo.foldl (stepModel C k) st).stores mm
        = st.stores mm ++ [⟨k, r, extract_convergence r, C.clock k mm⟩] := by
  intro todo
  induction todo with
  | nil => intro st mm _ h; cases h
  | cons c rest ih =>
    intro st mm hnd hmm
    rw [List.foldl_cons]
    rcases List.mem_cons.mp hmm with rfl | hmem
    · have hnotin : mm ∉ rest := (List.nodup_cons.mp hnd).1
      rw [foldl_stores_notMem C k rest _ mm hnotin]
      exact ⟨C.oracle mm (promptFor C k st.latest mm), by simp [stepModel]⟩
    · have hc : mm ≠ c := fun he => (List.nodup_cons.mp hnd).1 (he ▸ hmem)
      rcases ih (stepModel C k st c) mm (List.nodup_cons.mp hnd).2 hmem with ⟨r, hr⟩
      exact ⟨r, by rw [hr, stepModel_stores_ne C k st c mm hc]⟩

theorem stateAfter_stores_rounds (C : Ctx) (hnd : C.models.Nodup) (mm : String)
    (hm : mm ∈ C.models) :
    ∀ k, ((stateAfter C k).stores mm).map (fun r => r.response_number)
      = List.range' 1 k := by
  intro k
  induction k with
  | zero => rfl
  | succ k ih =>
    have hstep : stateAfter C (k + 1) = processRound C (k + 1) (stateAfter C k) := rfl
    rw [hstep, processRound]
    rcases foldl_stores_mem C (k + 1) C.models (stateAfter C k) mm hnd hm with ⟨r, hr⟩
    rw [hr, List.map_append, ih, List.range'_concat]
    simp [Nat.add_comm]

theorem get_all_responses_sorted (db : List RRecord)
    (h : db.Pairwise (fun a b => a.response_number < b.response_number)) :
    get_all_responses db = db := by
  induction db with
  | nil => rfl
  | cons x xs ih =>
    have hx := List.pairwise_cons.mp h
    rw [get_all_responses, List.foldr_cons,
        show xs.foldr insertByNumber [] = get_all_responses xs from rfl, ih hx.2]
    cases xs with
    | nil => rfl
    | cons y ys =>
      have hxy : x.response_number < y.response_number := hx.1 y (by simp)
      rw [insertByNumber, if_pos (le_of_lt hxy)]

theorem stopCount_all_false (C : Ctx) :
    ∀ n k, (∀ j < n, convergedAfter C (k + 1 + j) = false) → stopCount C k n = n := by
  intro n
  induction n with
  | zero => intro k _; rfl
  | succ n ih =>
    intro k h
    have h0 : convergedAfter C (k + 1) = false := by
      have := h 0 (by omega)
      simpa using this
    rw [stopCount, if_neg (by simp [h0])]
    have := ih (k + 1) (fun j hj => by
      have hj2 := h (j + 1) (by omega)
      have harith : k + 1 + (j + 1) = k + 1 + 1 + j := by omega
      rw [harith] at hj2
      exact hj2)
    omega

/-- Claim C7: in a full run of max-interactions rounds with no early
convergence, each configured model's response store holds exactly one record
per round number 1..max-interactions, appended in ascending order with no
gaps and no duplicates, and get_all_responses returns exactly those records
in ascending round order. -/
theorem responseStore_full_run_records (C : Ctx) (maxI : Nat) (hnd : C.models.Nodup)
    (mm : String) (hm : mm ∈ C.models) (hmax : 2 ≤ maxI)
    (hnc : ∀ j < maxI, convergedAfter C (j + 1) = false) :
    ((runDiscussion C maxI).2.stores mm).map (fun r => r.response_number)
        = List.range' 1 maxI
    ∧ get_all_responses ((runDiscussion C maxI).2.stores mm)
        = (runDiscussion C maxI).2.stores mm := by
  have hstop : stopCount C 0 maxI = maxI := by
    apply stopCount_all_false C maxI 0
    intro j hj
    have := hnc j hj
    simpa [Nat.add_comm] using this
  have hrun : runDiscussion C maxI
      = (List.range' 1 (stopCount C 0 maxI), stateAfter C (0 + stopCount C 0 maxI)) :=
    discussionLoop_char C maxI 0
  have hrun2 : (runDiscussion C maxI).2 = stateAfter C maxI := by
    rw [hrun, hstop]
    simp
  have hmap := stateAfter_stores_rounds C hnd mm hm maxI
  refine ⟨by rw [hrun2]; exact hmap, ?_⟩
  rw [hrun2]
  apply get_all_responses_sorted
  have hpair : (((stateAfter C maxI).stores mm).map
      (fun r => r.response_number)).Pairwise (· < ·) := by
    rw [hmap]
    exact List.pairwise_lt_range' 1 maxI
  exact List.pairwise_map.mp hpair

theorem responseStore_full_run_records_witness :
    (Ctx.mk (fun _ _ => "") ["alpha", "beta"] "topic" 90 (fun _ _ => "ts")).models.Nodup
    ∧ "alpha" ∈ (Ctx.mk (fun _ _ => "") ["alpha", "beta"] "topic" 90
        (fun _ _ => "ts")).models
    ∧ 2 ≤ 2
    ∧ (∀ j < 2, convergedAfter (Ctx.mk (fun _ _ => "") ["alpha", "beta"] "topic" 90
        (fun _ _ => "ts")) (j + 1) = false)
    ∧ (((runDiscussion (Ctx.mk (fun _ _ => "") ["alpha", "beta"] "topic" 90
          (fun _ _ => "ts")) 2).2.stores "alpha").map (fun r => r.response_number)
        = List.range' 1 2
      ∧ get_all_responses ((runDiscussion (Ctx.mk (fun _ _ => "") ["alpha", "beta"]
          "topic" 90 (fun _ _ => "ts")) 2).2.stores "alpha")
        = (runDiscussion (Ctx.mk (fun _ _ => "") ["alpha", "beta"] "topic" 90
            (fun _ _ => "ts")) 2).2.stores "alpha") :=
  ⟨by decide, by decide, by decide,
   by
    intro j hj
    have hex : extract_convergence "" = 0 := rfl
    have hch : (check_convergence ([("alpha", ""), ("beta", "")] :
        List (String × String)) 90).1 = false := by
      simp [check_convergence, hex]
    interval_cases j
    · have hl : (stateAfter (Ctx.mk (fun _ _ => "") ["alpha", "beta"] "topic" 90
          (fun _ _ => "ts")) (0 + 1)).latest = [("alpha", ""), ("beta", "")] := by decide
      rw [convergedAfter, hl]
      exact hch
    · have hl : (stateAfter (Ctx.mk (fun _ _ => "") ["alpha", "beta"] "topic" 90
          (fun _ _ => "ts")) (1 + 1)).latest = [("alpha", ""), ("beta", "")] := by decide
      rw [convergedAfter, hl]
      exact hch,
   responseStore_full_run_records
     (Ctx.mk (fun _ _ => "") ["alpha", "beta"] "topic" 90 (fun _ _ => "ts")) 2
     (by decide) "alpha" (by decide) (by decide)
     (by
      intro j hj
      have hex : extract_convergence "" = 0 := rfl
      have hch : (check_convergence ([("alpha", ""), ("beta", "")] :
          List (String × String)) 90).1 = false := by
        simp [check_convergence, hex]
      interval_cases j
      · have hl : (stateAfter (Ctx.mk (fun _ _ => "") ["alpha", "beta"] "topic" 90
            (fun _ _ => "ts")) (0 + 1)).latest = [("alpha", ""), ("beta", "")] := by decide
        rw [convergedAfter, hl]
        exact hch
      · have hl : (stateAfter (Ctx.mk (fun _ _ => "") ["alpha", "beta"] "topic" 90
            (fun _ _ => "ts")) (1 + 1)).latest = [("alpha", ""), ("beta", "")] := by decide
        rw [convergedAfter, hl]
        exact hch)⟩

end PeerConsensus
